import Mathlib

/-!
Verification of the vm-device crate's bus registry, I/O dispatch and
KVM interrupt-routing logic, via a shallow embedding of the Rust source.

Bus part (src/bus/range.rs, src/bus/mod.rs, src/device_manager.rs):
addresses are natural numbers bounded by an address-space maximum `amax`
(2^64 - 1 for MMIO, 2^16 - 1 for PIO); the offset type maximum is `vmax`.
The `BTreeMap<BusRange<A>, D>` keyed by `BusRange`, whose `Ord`/`Eq` look
only at `base`, is embedded as a list of `(BusRange, device)` pairs kept
strictly sorted by `base` (predicate `busSorted`), which is exactly the
iteration order the `BTreeMap` provides.
-/

/-- Errors of bus operations; embeds `Error` of src/bus/mod.rs. -/
inductive BusError where
  | DeviceNotFound
  | DeviceOverlap
  | InvalidAccessLength (len : Nat)
  | InvalidRange
deriving DecidableEq, Repr

/-- An interval in the address space; embeds `BusRange` of src/bus/range.rs
(field `size` has the offset value type of the address). -/
structure BusRange where
  base : Nat
  size : Nat
deriving DecidableEq, Repr

/-- `BusRange::last`: the last address still part of the range
(`self.base + (self.size - 1)`, `Nat` subtraction matching the unsigned
subtraction, which does not underflow for constructible ranges). -/
def BusRange.last (r : BusRange) : Nat := r.base + (r.size - 1)

/-- `BusRange::new(base, size)` checked against the address-space maximum
`amax`: fails with `InvalidRange` when `size == 0` or when
`base.checked_add(size - 1)` overflows (exceeds `amax`). -/
def BusRange.new (amax base size : Nat) : Except BusError BusRange :=
  if size = 0 then .error .InvalidRange
  else if amax < base + (size - 1) then .error .InvalidRange
  else .ok ⟨base, size⟩

/-- `BusRange::unit(base)`: the range of size 1 at `base`. -/
def BusRange.unit (base : Nat) : BusRange := ⟨base, 1⟩

/-- `BusRange::overlaps`: `!(self.base > other.last() || self.last() < other.base)`. -/
def BusRange.overlaps (r other : BusRange) : Bool :=
  !(decide (other.last < r.base) || decide (r.last < other.base))

/-- The `BTreeMap` contents of a `Bus<A, D>`: entries in strictly
increasing key order (keys compare by `base` alone). -/
def busSorted {D : Type} (l : List (BusRange × D)) : Prop :=
  l.Pairwise fun p q => p.1.base < q.1.base

/-- The documented bus invariant: no two registered ranges overlap. -/
def busNoOverlap {D : Type} (l : List (BusRange × D)) : Prop :=
  l.Pairwise fun p q => p.1.overlaps q.1 = false

/-- `Bus::device(addr)`: predecessor search. `range(..=BusRange::unit(addr))`
keeps the entries whose key (base) is `≤ addr`; `.nth_back(0)` takes the
greatest of them; `.filter(|pair| pair.0.last() >= addr)` accepts it only
if it still covers `addr`. -/
def Bus.device {D : Type} (l : List (BusRange × D)) (addr : Nat) :
    Option (BusRange × D) :=
  match (l.filter fun p => decide (p.1.base ≤ addr)).getLast? with
  | none => none
  | some p => if addr ≤ p.1.last then some p else none

/-- `BTreeMap::insert` on the base-ordered map: replaces the value when an
equal key (same `base`) is present — keeping the stored key — and otherwise
places the new entry at its sorted position. -/
def Bus.insertByBase {D : Type} (range : BusRange) (d : D) :
    List (BusRange × D) → List (BusRange × D)
  | [] => [(range, d)]
  | p :: rest =>
    if range.base < p.1.base then (range, d) :: p :: rest
    else if range.base = p.1.base then (p.1, d) :: rest
    else p :: Bus.insertByBase range d rest

/-- `Bus::register(range, device)`: scan all existing keys for overlap,
return `DeviceOverlap` on any hit, otherwise insert. -/
def Bus.register {D : Type} (l : List (BusRange × D)) (range : BusRange) (d : D) :
    Except BusError (List (BusRange × D)) :=
  if l.any fun p => range.overlaps p.1 then .error .DeviceOverlap
  else .ok (Bus.insertByBase range d l)

/-- `Bus::register` seen as a state transformer: the pair of the returned
error (if any) and the bus contents after the call — on the error path the
Rust method returns before touching `self.devices`. -/
def Bus.registerRun {D : Type} (l : List (BusRange × D)) (range : BusRange) (d : D) :
    Option BusError × List (BusRange × D) :=
  match Bus.register l range d with
  | .ok l' => (none, l')
  | .error e => (some e, l)

/-- A sequence of `Bus::register` calls, failing as soon as one fails. -/
def Bus.registerSeq {D : Type} (l : List (BusRange × D)) :
    List (BusRange × D) → Except BusError (List (BusRange × D))
  | [] => .ok l
  | op :: rest => do
    let l' ← Bus.register l op.1 op.2
    Bus.registerSeq l' rest

/-- `Bus::deregister(addr)`: look the address up, and when a range is found
remove the entry with that key (`BTreeMap::remove` compares by `base`),
returning the removed pair and the remaining bus contents. -/
def Bus.deregister {D : Type} (l : List (BusRange × D)) (addr : Nat) :
    Option ((BusRange × D) × List (BusRange × D)) :=
  match Bus.device l addr with
  | none => none
  | some p => some (p, l.eraseP fun q => q.1.base == p.1.base)

/-- `Bus::check_access(addr, len)`: `A::V::try_from(len)` fails
(`InvalidAccessLength`) when `len` exceeds the offset-type maximum `vmax`;
`BusRange::new(addr, len)` failures become `InvalidRange`; then the device
lookup result is kept only when the found range also covers the access's
last address, `DeviceNotFound` otherwise. -/
def Bus.check_access {D : Type} (amax vmax : Nat) (l : List (BusRange × D))
    (addr len : Nat) : Except BusError (BusRange × D) :=
  if vmax < len then .error (.InvalidAccessLength len)
  else
    match BusRange.new amax addr len with
    | .error _ => .error .InvalidRange
    | .ok acc =>
      match Bus.device l addr with
      | some p => if acc.last ≤ p.1.last then .ok p else .error .DeviceNotFound
      | none => .error .DeviceNotFound

/-- One invocation of a device capability, as dispatched by the blanket
`PioManager`/`MmioManager` impls of src/device_manager.rs: the device, the
`base` argument (`range.base()`), the `offset` argument (`addr - range.base()`)
and the data buffer handed through. -/
structure DeviceCall (D : Type) where
  dev : D
  base : Nat
  offset : Nat
  data : List Nat
deriving DecidableEq, Repr

/-- The shared shape of `pio_read`/`pio_write`/`mmio_read`/`mmio_write`:
`self.bus().check_access(addr, data.len()).map(|(range, device)|
device.f(range.base(), addr - range.base(), data))`. The single capability
call of the success path is recorded as a one-element trace of
`DeviceCall`s; the error path performs no call. -/
def Bus.dispatch {D : Type} (amax vmax : Nat) (l : List (BusRange × D))
    (addr : Nat) (data : List Nat) : Except BusError (List (DeviceCall D)) :=
  (Bus.check_access amax vmax l addr data.length).map
    fun p => [⟨p.2, p.1.base, addr - p.1.base, data⟩]

/-- Maximum MMIO address / `MmioAddressOffset` value (`u64`). -/
def MMIO_MAX : Nat := 2 ^ 64 - 1

/-- Maximum PIO address / `PioAddressOffset` value (`u16`). -/
def PIO_MAX : Nat := 2 ^ 16 - 1

/-- `MmioManager::mmio_write` (and, identically, `mmio_read`) of the
`IoManager`'s MMIO bus. -/
def IoManager.mmio_write {D : Type} (l : List (BusRange × D)) (addr : Nat)
    (data : List Nat) : Except BusError (List (DeviceCall D)) :=
  Bus.dispatch MMIO_MAX MMIO_MAX l addr data

/-- `PioManager::pio_write` (and, identically, `pio_read`) of the
`IoManager`'s PIO bus. -/
def IoManager.pio_write {D : Type} (l : List (BusRange × D)) (addr : Nat)
    (data : List Nat) : Except BusError (List (DeviceCall D)) :=
  Bus.dispatch PIO_MAX PIO_MAX l addr data

/-! ### Basic facts about ranges -/

theorem BusRange.base_le_last (r : BusRange) : r.base ≤ r.last :=
  Nat.le_add_right _ _

theorem BusRange.overlaps_eq_true_iff {r o : BusRange} :
    r.overlaps o = true ↔ r.base ≤ o.last ∧ o.base ≤ r.last := by
  simp [BusRange.overlaps, Nat.not_lt, and_comm]

theorem BusRange.overlaps_comm (r o : BusRange) : r.overlaps o = o.overlaps r := by
  simp [BusRange.overlaps, Bool.or_comm]

theorem BusRange.overlaps_of_common_point {r o : BusRange} {a : Nat}
    (h1 : r.base ≤ a) (h2 : a ≤ r.last) (h3 : o.base ≤ a) (h4 : a ≤ o.last) :
    r.overlaps o = true :=
  BusRange.overlaps_eq_true_iff.2 ⟨le_trans h1 h4, le_trans h3 h2⟩

theorem BusRange.overlaps_of_base_eq {r o : BusRange} (h : o.base = r.base) :
    r.overlaps o = true :=
  BusRange.overlaps_eq_true_iff.2
    ⟨h ▸ BusRange.base_le_last o, h.le.trans (BusRange.base_le_last r)⟩

theorem mem_of_getLastEq {α : Type} {l : List α} {a : α}
    (h : l.getLast? = some a) : a ∈ l := by
  induction l with
  | nil => cases h
  | cons x xs ih =>
    cases xs with
    | nil => cases h; exact List.mem_singleton_self _
    | cons y ys =>
      rw [List.getLast?_cons_cons] at h
      exact List.mem_cons_of_mem _ (ih h)

/-! ### Lookup lemmas -/

theorem Bus.device_sound {D : Type} {l : List (BusRange × D)} {addr : Nat}
    {p : BusRange × D} (h : Bus.device l addr = some p) :
    p ∈ l ∧ p.1.base ≤ addr ∧ addr ≤ p.1.last := by
  cases hg : (l.filter fun q => decide (q.1.base ≤ addr)).getLast? with
  | none => simp only [Bus.device, hg] at h; cases h
  | some q =>
    simp only [Bus.device, hg] at h
    by_cases hle : addr ≤ q.1.last
    · rw [if_pos hle] at h
      cases h
      have hm := mem_of_getLastEq hg
      rw [List.mem_filter] at hm
      exact ⟨hm.1, by simpa using hm.2, hle⟩
    · rw [if_neg hle] at h; cases h

theorem Bus.device_complete {D : Type} {l : List (BusRange × D)} {addr : Nat}
    {p : BusRange × D} (hs : busSorted l) (hn : busNoOverlap l)
    (hp : p ∈ l) (h1 : p.1.base ≤ addr) (h2 : addr ≤ p.1.last) :
    Bus.device l addr = some p := by
  induction l with
  | nil => cases hp
  | cons q rest ih =>
    obtain ⟨hshead, hstail⟩ := List.pairwise_cons.1 hs
    obtain ⟨hnhead, hntail⟩ := List.pairwise_cons.1 hn
    rcases List.mem_cons.1 hp with rfl | hp'
    · have hfr : rest.filter (fun q' => decide (q'.1.base ≤ addr)) = [] := by
        rw [List.filter_eq_nil_iff]
        intro q' hq'
        simp only [decide_eq_true_eq]
        intro hble
        have hno : p.1.overlaps q'.1 = false := hnhead q' hq'
        have hyes : p.1.overlaps q'.1 = true :=
          BusRange.overlaps_eq_true_iff.2
            ⟨le_trans (le_of_lt (hshead q' hq')) (BusRange.base_le_last q'.1),
              le_trans hble h2⟩
        rw [hno] at hyes
        cases hyes
      have hfl : (p :: rest).filter (fun q' => decide (q'.1.base ≤ addr)) = [p] := by
        rw [List.filter_cons_of_pos (by simpa using h1), hfr]
      unfold Bus.device
      rw [hfl]
      simp [h2]
    · have hlt : q.1.base < p.1.base := hshead p hp'
      have hqle : q.1.base ≤ addr := le_trans (le_of_lt hlt) h1
      have ihres := ih hstail hntail hp'
      have hpf : p ∈ rest.filter fun q' => decide (q'.1.base ≤ addr) :=
        List.mem_filter.2 ⟨hp', by simpa using h1⟩
      cases hfr : rest.filter (fun q' => decide (q'.1.base ≤ addr)) with
      | nil => rw [hfr] at hpf; cases hpf
      | cons x xs =>
        unfold Bus.device at ihres ⊢
        rw [List.filter_cons_of_pos (by simpa using hqle), hfr]
        rw [hfr] at ihres
        rw [List.getLast?_cons_cons]
        exact ihres

theorem Bus.containing_unique {D : Type} {l : List (BusRange × D)} {addr : Nat}
    {p q : BusRange × D} (hn : busNoOverlap l)
    (hp : p ∈ l) (hq : q ∈ l)
    (hp1 : p.1.base ≤ addr) (hp2 : addr ≤ p.1.last)
    (hq1 : q.1.base ≤ addr) (hq2 : addr ≤ q.1.last) : p = q := by
  by_contra hne
  have hsymm : Symmetric (fun a b : BusRange × D => a.1.overlaps b.1 = false) := by
    intro a b h
    rw [BusRange.overlaps_comm]
    exact h
  have hfalse := hn.forall hsymm hp hq hne
  have htrue := BusRange.overlaps_of_common_point hp1 hp2 hq1 hq2
  rw [hfalse] at htrue
  cases htrue

theorem Bus.device_eq_none_iff {D : Type} {l : List (BusRange × D)} {addr : Nat}
    (hs : busSorted l) (hn : busNoOverlap l) :
    Bus.device l addr = none ↔
      ∀ p ∈ l, ¬(p.1.base ≤ addr ∧ addr ≤ p.1.last) := by
  constructor
  · intro h p hp hc
    have := Bus.device_complete hs hn hp hc.1 hc.2
    rw [h] at this
    cases this
  · intro h
    cases hd : Bus.device l addr with
    | none => rfl
    | some p =>
      have hres := Bus.device_sound hd
      exact absurd ⟨hres.2.1, hres.2.2⟩ (h p hres.1)

/-! ### Insertion and removal lemmas -/

theorem Bus.base_ne_of_not_overlaps {D : Type} {l : List (BusRange × D)}
    {r : BusRange} (hdisj : ∀ p ∈ l, r.overlaps p.1 = false) :
    ∀ p ∈ l, p.1.base ≠ r.base := by
  intro p hp heq
  have hfalse := hdisj p hp
  have htrue := BusRange.overlaps_of_base_eq (r := r) (o := p.1) heq
  rw [hfalse] at htrue
  cases htrue

theorem Bus.mem_insertByBase {D : Type} {l : List (BusRange × D)} {r : BusRange}
    {d : D} {q : BusRange × D} (hfresh : ∀ p ∈ l, p.1.base ≠ r.base) :
    q ∈ Bus.insertByBase r d l ↔ q = (r, d) ∨ q ∈ l := by
  induction l with
  | nil => simp [Bus.insertByBase]
  | cons p rest ih =>
    have hf : p.1.base ≠ r.base := hfresh p (List.mem_cons_self p rest)
    have ihr := ih fun p' hp' => hfresh p' (List.mem_cons_of_mem _ hp')
    by_cases h1 : r.base < p.1.base
    · simp only [Bus.insertByBase, if_pos h1, List.mem_cons]
    · have h2 : ¬ r.base = p.1.base := fun h => hf h.symm
      simp only [Bus.insertByBase, if_neg h1, if_neg h2, List.mem_cons, ihr]
      tauto

theorem Bus.sorted_insertByBase {D : Type} {l : List (BusRange × D)}
    {r : BusRange} {d : D} (hs : busSorted l)
    (hfresh : ∀ p ∈ l, p.1.base ≠ r.base) :
    busSorted (Bus.insertByBase r d l) := by
  induction l with
  | nil => simp [Bus.insertByBase, busSorted]
  | cons p rest ih =>
    obtain ⟨hshead, hstail⟩ := List.pairwise_cons.1 hs
    have hf : p.1.base ≠ r.base := hfresh p (List.mem_cons_self p rest)
    have hfreshr : ∀ p' ∈ rest, p'.1.base ≠ r.base :=
      fun p' hp' => hfresh p' (List.mem_cons_of_mem _ hp')
    by_cases h1 : r.base < p.1.base
    · simp only [Bus.insertByBase, if_pos h1]
      refine List.Pairwise.cons ?_ hs
      intro q hq
      rcases List.mem_cons.1 hq with rfl | hq'
      · exact h1
      · exact lt_trans h1 (hshead q hq')
    · have h2 : ¬ r.base = p.1.base := fun h => hf h.symm
      have hlt : p.1.base < r.base := by omega
      simp only [Bus.insertByBase, if_neg h1, if_neg h2]
      refine List.Pairwise.cons ?_ (ih hstail hfreshr)
      intro q hq
      rcases (Bus.mem_insertByBase hfreshr).1 hq with rfl | hq'
      · exact hlt
      · exact hshead q hq'

theorem Bus.noOverlap_insertByBase {D : Type} {l : List (BusRange × D)}
    {r : BusRange} {d : D} (hn : busNoOverlap l)
    (hdisj : ∀ p ∈ l, r.overlaps p.1 = false) :
    busNoOverlap (Bus.insertByBase r d l) := by
  induction l with
  | nil => simp [Bus.insertByBase, busNoOverlap]
  | cons p rest ih =>
    obtain ⟨hnhead, hntail⟩ := List.pairwise_cons.1 hn
    have hf : p.1.base ≠ r.base :=
      Bus.base_ne_of_not_overlaps hdisj p (List.mem_cons_self p rest)
    have hdisjr : ∀ p' ∈ rest, r.overlaps p'.1 = false :=
      fun p' hp' => hdisj p' (List.mem_cons_of_mem _ hp')
    have hfreshr : ∀ p' ∈ rest, p'.1.base ≠ r.base :=
      Bus.base_ne_of_not_overlaps hdisjr
    by_cases h1 : r.base < p.1.base
    · simp only [Bus.insertByBase, if_pos h1]
      exact List.Pairwise.cons (fun q hq => hdisj q hq) hn
    · have h2 : ¬ r.base = p.1.base := fun h => hf h.symm
      simp only [Bus.insertByBase, if_neg h1, if_neg h2]
      refine List.Pairwise.cons ?_ (ih hntail hdisjr)
      intro q hq
      rcases (Bus.mem_insertByBase hfreshr).1 hq with rfl | hq'
      · rw [BusRange.overlaps_comm]
        exact hdisj p (List.mem_cons_self p rest)
      · exact hnhead q hq'

theorem Bus.eraseP_insertByBase {D : Type} {l : List (BusRange × D)}
    {r : BusRange} {d : D} (hfresh : ∀ p ∈ l, p.1.base ≠ r.base) :
    (Bus.insertByBase r d l).eraseP (fun q => q.1.base == r.base) = l := by
  induction l with
  | nil => simp [Bus.insertByBase, List.eraseP]
  | cons p rest ih =>
    have hf : p.1.base ≠ r.base := hfresh p (List.mem_cons_self p rest)
    have ihr := ih fun p' hp' => hfresh p' (List.mem_cons_of_mem _ hp')
    by_cases h1 : r.base < p.1.base
    · simp [Bus.insertByBase, if_pos h1, List.eraseP_cons]
    · have h2 : ¬ r.base = p.1.base := fun h => hf h.symm
      simp [Bus.insertByBase, if_neg h1, if_neg h2, List.eraseP_cons, hf, ihr]

/-! ### Register lemmas -/

theorem Bus.register_overlap_iff {D : Type} (l : List (BusRange × D))
    (r : BusRange) (d : D) :
    Bus.register l r d = .error .DeviceOverlap ↔ ∃ p ∈ l, r.overlaps p.1 = true := by
  unfold Bus.register
  by_cases ha : (l.any fun p => r.overlaps p.1) = true
  · rw [if_pos ha]
    exact iff_of_true rfl (List.any_eq_true.1 ha)
  · simp only [ha, if_false]
    constructor
    · intro h
      cases h
    · intro h
      exact absurd (List.any_eq_true.2 h) ha

theorem Bus.register_ok_noOverlap {D : Type} {l l' : List (BusRange × D)}
    {r : BusRange} {d : D} (hn : busNoOverlap l)
    (h : Bus.register l r d = .ok l') : busNoOverlap l' := by
  unfold Bus.register at h
  by_cases ha : (l.any fun p => r.overlaps p.1) = true
  · rw [if_pos ha] at h
    cases h
  · rw [if_neg ha] at h
    cases h
    have hdisj : ∀ p ∈ l, r.overlaps p.1 = false := by
      intro p hp
      cases hc : r.overlaps p.1 with
      | false => rfl
      | true => exact absurd (List.any_eq_true.2 ⟨p, hp, hc⟩) ha
    exact Bus.noOverlap_insertByBase hn hdisj

theorem Bus.registerSeq_ok_noOverlap {D : Type} {l l' : List (BusRange × D)}
    {ops : List (BusRange × D)} (h0 : busNoOverlap l)
    (h : Bus.registerSeq l ops = .ok l') : busNoOverlap l' := by
  induction ops generalizing l with
  | nil =>
    unfold Bus.registerSeq at h
    cases h
    exact h0
  | cons op rest ih =>
    unfold Bus.registerSeq at h
    cases hr : Bus.register l op.1 op.2 with
    | error e =>
      rw [hr] at h
      simp only [Bind.bind, Except.bind] at h
      cases h
    | ok l1 =>
      rw [hr] at h
      simp only [Bind.bind, Except.bind] at h
      exact ih (Bus.register_ok_noOverlap h0 hr) h

/-! ### Claim C1 -/

/-- **C1**: for every sequence of `Bus::register` calls that all succeed,
starting from a bus satisfying the non-overlap invariant (in particular the
empty bus), the resulting registered ranges are pairwise non-overlapping;
and `register` returns `DeviceOverlap` exactly when the candidate range
overlaps some existing range. -/
theorem register_seq_no_overlap {D : Type} (l l' : List (BusRange × D))
    (ops : List (BusRange × D)) (h0 : busNoOverlap l)
    (hseq : Bus.registerSeq l ops = .ok l') :
    busNoOverlap l' ∧
      ∀ (m : List (BusRange × D)) (r : BusRange) (d : D),
        Bus.register m r d = .error .DeviceOverlap ↔
          ∃ p ∈ m, r.overlaps p.1 = true :=
  ⟨Bus.registerSeq_ok_noOverlap h0 hseq,
    fun m r d => Bus.register_overlap_iff m r d⟩

/-- Witness for C1: two disjoint registrations on the empty MMIO bus
succeed and leave non-overlapping ranges; a third overlapping one is
refused with `DeviceOverlap`. -/
theorem register_seq_no_overlap_witness :
    busNoOverlap [(⟨10, 10⟩, (1 : Nat)), (⟨30, 5⟩, 2)] ∧
      (Bus.register [(⟨10, 10⟩, (1 : Nat)), (⟨30, 5⟩, 2)] ⟨15, 10⟩ 3
          = .error .DeviceOverlap ↔
        ∃ p ∈ [(⟨10, 10⟩, (1 : Nat)), (⟨30, 5⟩, 2)],
          BusRange.overlaps ⟨15, 10⟩ p.1 = true) := by
  have h := register_seq_no_overlap (D := Nat) []
    [(⟨10, 10⟩, 1), (⟨30, 5⟩, 2)] [(⟨10, 10⟩, 1), (⟨30, 5⟩, 2)]
    (by unfold busNoOverlap; decide) rfl
  exact ⟨h.1, h.2 _ _ _⟩

/-! ### Claim C10 -/

/-- **C10**: when the candidate range overlaps an existing one, `register`
returns `DeviceOverlap` and the bus contents after the call are exactly the
contents before it. -/
theorem register_overlap_leaves_bus_unchanged {D : Type}
    (l : List (BusRange × D)) (range : BusRange) (d : D)
    (h : ∃ p ∈ l, range.overlaps p.1 = true) :
    Bus.registerRun l range d = (some .DeviceOverlap, l) := by
  unfold Bus.registerRun
  rw [(Bus.register_overlap_iff l range d).2 h]

/-- Witness for C10: registering `[5, 15)` over the existing `[10, 20)`
fails with `DeviceOverlap` and leaves the single entry untouched. -/
theorem register_overlap_leaves_bus_unchanged_witness :
    Bus.registerRun [(⟨10, 10⟩, (1 : Nat))] ⟨5, 10⟩ 2
      = (some .DeviceOverlap, [(⟨10, 10⟩, (1 : Nat))]) :=
  register_overlap_leaves_bus_unchanged [(⟨10, 10⟩, 1)] ⟨5, 10⟩ 2 (by decide)

/-! ### Claim C3 -/

/-- **C3**: on a bus whose entries are base-sorted (the `BTreeMap`
representation) and pairwise non-overlapping (the registration invariant,
C1), `Bus::device` — the predecessor search with a unit key — returns
exactly the unique registered entry whose range contains the address, and
`none` when no registered range contains it. -/
theorem device_lookup_unique_containing {D : Type}
    (l : List (BusRange × D)) (addr : Nat)
    (hs : busSorted l) (hn : busNoOverlap l) :
    (∀ p : BusRange × D, Bus.device l addr = some p ↔
        p ∈ l ∧ p.1.base ≤ addr ∧ addr ≤ p.1.last) ∧
    (Bus.device l addr = none ↔
        ∀ p ∈ l, ¬(p.1.base ≤ addr ∧ addr ≤ p.1.last)) ∧
    (∀ p q : BusRange × D, p ∈ l → q ∈ l →
        p.1.base ≤ addr → addr ≤ p.1.last →
        q.1.base ≤ addr → addr ≤ q.1.last → p = q) := by
  refine ⟨?_, Bus.device_eq_none_iff hs hn, ?_⟩
  · intro p
    constructor
    · intro h
      exact Bus.device_sound h
    · intro h
      exact Bus.device_complete hs hn h.1 h.2.1 h.2.2
  · intro p q hp hq hp1 hp2 hq1 hq2
    exact Bus.containing_unique hn hp hq hp1 hp2 hq1 hq2

/-- Witness for C3: on the bus `{[10, 20) ↦ 1, [30, 35) ↦ 2}`, address 12
resolves to the first entry and address 25 to nothing. -/
theorem device_lookup_unique_containing_witness :
    Bus.device [(⟨10, 10⟩, (1 : Nat)), (⟨30, 5⟩, 2)] 12 = some (⟨10, 10⟩, 1) ∧
      Bus.device [(⟨10, 10⟩, (1 : Nat)), (⟨30, 5⟩, 2)] 25 = none := by
  constructor
  · exact ((device_lookup_unique_containing [(⟨10, 10⟩, 1), (⟨30, 5⟩, 2)] 12
      (by unfold busSorted; decide) (by unfold busNoOverlap; decide)).1
        (⟨10, 10⟩, 1)).2 (by decide)
  · exact (device_lookup_unique_containing [(⟨10, 10⟩, 1), (⟨30, 5⟩, 2)] 25
      (by unfold busSorted; decide) (by unfold busNoOverlap; decide)).2.1.2
        (by decide)

/-! ### Claim C2 -/

/-- Counterexample to C2 as stated: with `[10, 20)` registered, the access
`check_access(10, 0)` satisfies the claimed success condition — `len = 0`
fits the offset type and the registered range `r` has `r.base ≤ addr` and
`addr + len - 1 ≤ r.last` — yet the code fails with `InvalidRange`
(`BusRange::new` rejects the zero-sized access range), not with success. -/
theorem check_access_zero_len_cex :
    Bus.check_access MMIO_MAX MMIO_MAX [(⟨10, 10⟩, (1 : Nat))] 10 0
        = .error .InvalidRange ∧
      0 ≤ MMIO_MAX ∧
      ∃ p ∈ ([(⟨10, 10⟩, 1)] : List (BusRange × Nat)),
        p.1.base ≤ 10 ∧ 10 + 0 - 1 ≤ p.1.last := by
  refine ⟨rfl, Nat.zero_le _, ?_⟩
  exact ⟨(⟨10, 10⟩, 1), by decide, by decide⟩

/-- **C2 (amended)**: on a bus state with the `BTreeMap` representation
(base-sorted) and the C1 non-overlap invariant, `check_access(addr, len)`
fails with `InvalidAccessLength(len)` when `len` exceeds the offset type's
maximum; fails with `InvalidRange` when `len = 0` or `addr + len - 1`
overflows the address space; and otherwise succeeds with `(r, d)` iff the
registered entry `(r, d)` covers the access (`r.base ≤ addr` and
`addr + len - 1 ≤ r.last`), failing with `DeviceNotFound` iff no registered
range covers it. -/
theorem check_access_characterization {D : Type} (amax vmax : Nat)
    (l : List (BusRange × D)) (addr len : Nat)
    (hs : busSorted l) (hn : busNoOverlap l) :
    (vmax < len →
      Bus.check_access amax vmax l addr len = .error (.InvalidAccessLength len)) ∧
    (len ≤ vmax → (len = 0 ∨ amax < addr + (len - 1)) →
      Bus.check_access amax vmax l addr len = .error .InvalidRange) ∧
    (len ≤ vmax → 1 ≤ len → addr + (len - 1) ≤ amax →
      (∀ p : BusRange × D,
        (Bus.check_access amax vmax l addr len = .ok p ↔
          p ∈ l ∧ p.1.base ≤ addr ∧ addr + (len - 1) ≤ p.1.last)) ∧
      (Bus.check_access amax vmax l addr len = .error .DeviceNotFound ↔
        ∀ p ∈ l, ¬(p.1.base ≤ addr ∧ addr + (len - 1) ≤ p.1.last))) := by
  refine ⟨?_, ?_, ?_⟩
  · intro hlt
    unfold Bus.check_access
    rw [if_pos hlt]
  · intro hle hbad
    have hnlt : ¬ vmax < len := not_lt.2 hle
    unfold Bus.check_access
    rw [if_neg hnlt]
    rcases hbad with h0 | hov
    · simp [BusRange.new, h0]
    · by_cases hz : len = 0
      · simp [BusRange.new, hz]
      · simp [BusRange.new, hz, hov]
  · intro hle h1 hov
    have hnlt : ¬ vmax < len := not_lt.2 hle
    have h0 : ¬ len = 0 := by omega
    have hnov : ¬ amax < addr + (len - 1) := not_lt.2 hov
    have hacc : Bus.check_access amax vmax l addr len =
        match Bus.device l addr with
        | some p => if addr + (len - 1) ≤ p.1.last then .ok p
                    else .error .DeviceNotFound
        | none => .error .DeviceNotFound := by
      unfold Bus.check_access
      rw [if_neg hnlt]
      simp only [BusRange.new, if_neg h0, if_neg hnov]
      rfl
    constructor
    · intro p
      rw [hacc]
      cases hd : Bus.device l addr with
      | none =>
        simp only []
        constructor
        · intro h
          cases h
        · intro h
          have := (Bus.device_eq_none_iff hs hn).1 hd p h.1
          exact absurd ⟨h.2.1, le_trans (Nat.le_add_right addr (len - 1)) h.2.2⟩ this
      | some q =>
        simp only []
        by_cases hcov : addr + (len - 1) ≤ q.1.last
        · rw [if_pos hcov]
          have hq := Bus.device_sound hd
          constructor
          · intro h
            cases h
            exact ⟨hq.1, hq.2.1, hcov⟩
          · intro h
            have : Bus.device l addr = some p :=
              Bus.device_complete hs hn h.1 h.2.1
                (le_trans (Nat.le_add_right addr (len - 1)) h.2.2)
            rw [hd] at this
            cases this
            rfl
        · rw [if_neg hcov]
          constructor
          · intro h
            cases h
          · intro h
            have : Bus.device l addr = some p :=
              Bus.device_complete hs hn h.1 h.2.1
                (le_trans (Nat.le_add_right addr (len - 1)) h.2.2)
            rw [hd] at this
            cases this
            exact absurd h.2.2 hcov
    · rw [hacc]
      cases hd : Bus.device l addr with
      | none =>
        simp only []
        constructor
        · intro _ p hp hc
          have := (Bus.device_eq_none_iff hs hn).1 hd p hp
          exact this ⟨hc.1, le_trans (Nat.le_add_right addr (len - 1)) hc.2⟩
        · intro _
          trivial
      | some q =>
        simp only []
        have hq := Bus.device_sound hd
        by_cases hcov : addr + (len - 1) ≤ q.1.last
        · rw [if_pos hcov]
          constructor
          · intro h
            cases h
          · intro h
            exact absurd ⟨hq.2.1, hcov⟩ (h q hq.1)
        · rw [if_neg hcov]
          constructor
          · intro _ p hp hc
            have : Bus.device l addr = some p :=
              Bus.device_complete hs hn hp hc.1
                (le_trans (Nat.le_add_right addr (len - 1)) hc.2)
            rw [hd] at this
            cases this
            exact absurd hc.2 hcov
          · intro _
            rfl

/-- Witness for the amended C2: on the bus `{[10, 20) ↦ 1}`, the access at
address 12 with length 4 is granted and returns the covering entry. -/
theorem check_access_characterization_witness :
    Bus.check_access MMIO_MAX MMIO_MAX [(⟨10, 10⟩, (1 : Nat))] 12 4
      = .ok (⟨10, 10⟩, 1) :=
  (((check_access_characterization MMIO_MAX MMIO_MAX [(⟨10, 10⟩, 1)] 12 4
      (by unfold busSorted; decide) (by unfold busNoOverlap; decide)).2.2
        (by decide) (by decide) (by decide)).1 (⟨10, 10⟩, 1)).2
    ⟨by decide, by decide, by decide⟩

/-! ### Claim C4 -/

/-- **C4**: on a bus `B` (base-sorted, non-overlapping) and a range `r`
disjoint from every registered range, a successful `register(r, d)`
followed by `deregister(addr)` for any `addr ∈ r` returns the pair
`(r, d)` and restores the bus contents to exactly `B`; and a further
`deregister` at the same address on `B` returns nothing. -/
theorem register_deregister_roundtrip {D : Type}
    (B : List (BusRange × D)) (r : BusRange) (d : D) (addr : Nat)
    (hs : busSorted B) (hn : busNoOverlap B)
    (hdisj : ∀ p ∈ B, r.overlaps p.1 = false)
    (h1 : r.base ≤ addr) (h2 : addr ≤ r.last) :
    Bus.register B r d = .ok (Bus.insertByBase r d B) ∧
    Bus.deregister (Bus.insertByBase r d B) addr = some ((r, d), B) ∧
    Bus.deregister B addr = none := by
  have hfresh : ∀ p ∈ B, p.1.base ≠ r.base := Bus.base_ne_of_not_overlaps hdisj
  have hreg : Bus.register B r d = .ok (Bus.insertByBase r d B) := by
    unfold Bus.register
    rw [if_neg]
    intro ha
    obtain ⟨p, hp, hov⟩ := List.any_eq_true.1 ha
    rw [hdisj p hp] at hov
    cases hov
  refine ⟨hreg, ?_, ?_⟩
  · have hs' : busSorted (Bus.insertByBase r d B) :=
      Bus.sorted_insertByBase hs hfresh
    have hn' : busNoOverlap (Bus.insertByBase r d B) :=
      Bus.noOverlap_insertByBase hn hdisj
    have hmem : (r, d) ∈ Bus.insertByBase r d B :=
      (Bus.mem_insertByBase hfresh).2 (Or.inl rfl)
    have hdev : Bus.device (Bus.insertByBase r d B) addr = some (r, d) :=
      Bus.device_complete hs' hn' hmem h1 h2
    simp only [Bus.deregister, hdev]
    rw [Bus.eraseP_insertByBase hfresh]
  · have hdev : Bus.device B addr = none := by
      rw [Bus.device_eq_none_iff hs hn]
      intro p hp hc
      have hov := BusRange.overlaps_of_common_point h1 h2 hc.1 hc.2
      rw [hdisj p hp] at hov
      cases hov
    simp only [Bus.deregister, hdev]

/-- Witness for C4: register `[10, 20)` on the bus `{[30, 35) ↦ 2}`, then
deregister at address 15: the pair comes back and the bus is restored;
deregistering 15 again finds nothing. -/
theorem register_deregister_roundtrip_witness :
    Bus.register [(⟨30, 5⟩, (2 : Nat))] ⟨10, 10⟩ 1
        = .ok [(⟨10, 10⟩, 1), (⟨30, 5⟩, 2)] ∧
      Bus.deregister [(⟨10, 10⟩, (1 : Nat)), (⟨30, 5⟩, 2)] 15
        = some ((⟨10, 10⟩, 1), [(⟨30, 5⟩, 2)]) ∧
      Bus.deregister [(⟨30, 5⟩, (2 : Nat))] 15 = none :=
  register_deregister_roundtrip [(⟨30, 5⟩, 2)] ⟨10, 10⟩ 1 15
    (by unfold busSorted; decide) (by unfold busNoOverlap; decide)
    (by decide) (by decide) (by decide)

/-! ### Claim C5 -/

/-- **C5**: for every dispatch (`pio_read`/`pio_write`/`mmio_read`/
`mmio_write` all share the `Bus.dispatch` shape), when `check_access`
succeeds with `(r, d)` the device capability is invoked exactly once, with
`base = r.base`, `offset = addr - r.base` and the given buffer, and the
dispatch returns success; when `check_access` fails the device is not
invoked and the access error is returned. -/
theorem dispatch_invokes_once {D : Type} (amax vmax : Nat)
    (l : List (BusRange × D)) (addr : Nat) (data : List Nat) :
    (∀ (r : BusRange) (d : D),
        Bus.check_access amax vmax l addr data.length = .ok (r, d) →
          Bus.dispatch amax vmax l addr data
            = .ok [⟨d, r.base, addr - r.base, data⟩]) ∧
    (∀ e : BusError,
        Bus.check_access amax vmax l addr data.length = .error e →
          Bus.dispatch amax vmax l addr data = .error e) := by
  constructor
  · intro r d h
    simp [Bus.dispatch, h, Except.map]
  · intro e h
    simp [Bus.dispatch, h, Except.map]

/-- Witness for C5 (the spec's scenario S4): with `[0x1000, 0x2000) ↦ 1`
on the MMIO bus, a write at `0x1004` with buffer `[0xAB]` produces exactly
one capability call `mmio_write(0x1000, 0x4, [0xAB])` on device 1. -/
theorem dispatch_invokes_once_witness :
    IoManager.mmio_write [(⟨0x1000, 0x1000⟩, (1 : Nat))] 0x1004 [0xAB]
      = .ok [⟨1, 0x1000, 0x4, [0xAB]⟩] :=
  (dispatch_invokes_once MMIO_MAX MMIO_MAX [(⟨0x1000, 0x1000⟩, 1)]
    0x1004 [0xAB]).1 ⟨0x1000, 0x1000⟩ 1 rfl

/-!
Interrupt part (src/interrupt/mod.rs, src/interrupt/kvm/mod.rs,
src/interrupt/kvm/legacy_irq.rs, src/interrupt/kvm/pci_msi_irq.rs).
The external hypervisor calls (`register_irqfd`, `set_gsi_routing`,
`EventFd::write`) are abstracted as parameters or recorded in traces; the
in-crate logic — length checks, the status word arithmetic, the routing
table validation, the default legacy routes — is embedded directly.
-/

/-- Errors of the KVM interrupt layer: the raw OS error codes the source
returns (`io::Error::from_raw_os_error(libc::…)`), plus an opaque backend
failure. -/
inductive IrqError where
  | EINVAL
  | EEXIST
  | ENOENT
  | backendFailure
deriving DecidableEq, Repr

/-- Maximum `usize` value: the `AtomicUsize` status word is 64 bits wide. -/
def USIZE_MAX : Nat := 2 ^ 64 - 1

/-- `LegacyIrq::trigger(index, flags)` of src/interrupt/kvm/legacy_irq.rs:
for index 0, atomically OR `flags` into the status word (`fetch_or`), then
write `1` to the irqfd. The result pairs the new status word with the
value written to the notifier; other indices give EINVAL. -/
def LegacyIrq.trigger (status index flags : Nat) :
    Except IrqError (Nat × Nat) :=
  if index ≠ 0 then .error .EINVAL
  else .ok (status ||| flags, 1)

/-- `LegacyIrq::ack(index, flags)`: for index 0, atomically clear the
`flags` bits of the status word (`fetch_and` with `!(flags as usize)`, the
64-bit bitwise complement); the result is the new status word. -/
def LegacyIrq.ack (status index flags : Nat) : Except IrqError Nat :=
  if index ≠ 0 then .error .EINVAL
  else .ok (status &&& (USIZE_MAX ^^^ flags))

/-- The generic `InterruptSourceGroup<I>` struct of src/interrupt/mod.rs:
a vector of interrupt sources. -/
structure InterruptSourceGroup (I : Type) where
  vec : List I

/-- `InterruptSourceGroup::len()`: the number of sources in the group. -/
def InterruptSourceGroup.len {I : Type} (g : InterruptSourceGroup I) : Nat :=
  g.vec.length

/-- The loop of `InterruptSourceGroup::enable`: `int.enable(config)?` over
the zipped (source, config) pairs, stopping at the first error. -/
def enableZipped {I C : Type} (enableOne : I → C → Except IrqError Unit) :
    List (I × C) → Except IrqError Unit
  | [] => .ok ()
  | p :: rest =>
    match enableOne p.1 p.2 with
    | .ok _ => enableZipped enableOne rest
    | .error e => .error e

/-- `InterruptSourceGroup::enable(configs)` of src/interrupt/mod.rs:
`for (int, config) in self.vec.iter().zip(configs.iter())
{ int.enable(config)?; } Ok(())`. The per-source `InterruptConfig::enable`
is a parameter. -/
def InterruptSourceGroup.enable {I C : Type} (g : InterruptSourceGroup I)
    (enableOne : I → C → Except IrqError Unit) (configs : List C) :
    Except IrqError Unit :=
  enableZipped enableOne (g.vec.zip configs)

/-- `LegacyIrq::enable(configs)` of src/interrupt/kvm/legacy_irq.rs:
EINVAL unless `configs.len() == 1`; then register the irqfd with KVM
(`backend` stands for that external call's result). -/
def LegacyIrq.enable {C : Type} (backend : Except IrqError Unit)
    (configs : List C) : Except IrqError Unit :=
  if configs.length ≠ 1 then .error .EINVAL else backend

/-- `PciMsiIrq::enable(configs)` of src/interrupt/kvm/pci_msi_irq.rs:
EINVAL unless `configs.len()` equals the group's `count`; then build and
add the MSI routing entries and register the irqfds (`rest` stands for
that part, which starts only after the check passes). -/
def PciMsiIrq.enable {C : Type} (count : Nat) (rest : Except IrqError Unit)
    (configs : List C) : Except IrqError Unit :=
  if configs.length ≠ count then .error .EINVAL else rest

/-- Modelled from the spec: the numeric constant `MAX_IRQS` of the
interrupt module. Its defining file is not under src/ (only its users
`KvmIrqRouting::add` and `PciMsiIrq::new` are); the spec's contractual
constants fix `MAX_IRQS = 1024`. -/
def MAX_IRQS : Nat := 1024

/-- `KVM_IRQ_ROUTING_IRQCHIP` of the KVM ABI (kvm_bindings). -/
def KVM_IRQ_ROUTING_IRQCHIP : Nat := 1

/-- `KVM_IRQCHIP_PIC_MASTER` of the KVM ABI (x86). -/
def KVM_IRQCHIP_PIC_MASTER : Nat := 0

/-- `KVM_IRQCHIP_PIC_SLAVE` of the KVM ABI (x86). -/
def KVM_IRQCHIP_PIC_SLAVE : Nat := 1

/-- `KVM_IRQCHIP_IOAPIC` of the KVM ABI (x86). -/
def KVM_IRQCHIP_IOAPIC : Nat := 2

/-- `MAX_LEGACY_IRQS` of src/interrupt/kvm/legacy_irq.rs. -/
def MAX_LEGACY_IRQS : Nat := 24

/-- A `kvm_irq_routing_entry` restricted to the fields the embedded code
reads: the GSI, the route type, and the irqchip payload (chip id + pin). -/
structure KvmIrqEntry where
  gsi : Nat
  type_ : Nat
  irqchip : Nat
  pin : Nat
deriving DecidableEq, Repr

/-- `hash_key(entry)` of src/interrupt/kvm/mod.rs:
`(u64::from(type1) << 48 | u64::from(entry.type_) << 32) | u64::from(entry.gsi)`,
where `type1` is the irqchip id for irqchip routes and 0 otherwise. -/
def hash_key (e : KvmIrqEntry) : Nat :=
  let type1 := if e.type_ = KVM_IRQ_ROUTING_IRQCHIP then e.irqchip else 0
  ((type1 <<< 48) ||| (e.type_ <<< 32)) ||| e.gsi

/-- The in-memory `HashMap<u64, kvm_irq_routing_entry>` of `KvmIrqRouting`,
embedded as an association list from hash keys to entries. -/
abbrev Routes := List (Nat × KvmIrqEntry)

/-- `HashMap::contains_key`. -/
def Routes.containsKey (routes : Routes) (k : Nat) : Bool :=
  routes.any fun p => p.1 == k

/-- `HashMap::insert`: replace the entry stored under an existing key,
append a fresh key. -/
def Routes.insert : Routes → Nat → KvmIrqEntry → Routes
  | [], k, e => [(k, e)]
  | p :: rest, k, e =>
    if p.1 = k then (k, e) :: rest else p :: Routes.insert rest k e

/-- The validation loop at the head of `KvmIrqRouting::add`: for each entry
in order, EINVAL if `entry.gsi >= MAX_IRQS`, else EEXIST if its key is
already in the table. -/
def KvmIrqRouting.addCheck (routes : Routes) :
    List KvmIrqEntry → Option IrqError
  | [] => none
  | e :: rest =>
    if MAX_IRQS ≤ e.gsi then some .EINVAL
    else if Routes.containsKey routes (hash_key e) then some .EEXIST
    else KvmIrqRouting.addCheck routes rest

/-- `KvmIrqRouting::add(entries)` as a state transformer: validate every
entry first; only when all pass, insert them all and call `set_routing`
once with the whole table (the KVM ioctl is abstracted as `commit`). The
second component is the in-memory table after the call. -/
def KvmIrqRouting.addRun (commit : Routes → Except IrqError Unit)
    (routes : Routes) (entries : List KvmIrqEntry) :
    Except IrqError Unit × Routes :=
  match KvmIrqRouting.addCheck routes entries with
  | some e => (.error e, routes)
  | none =>
    let routes' := entries.foldl (fun m e => Routes.insert m (hash_key e) e) routes
    (commit routes', routes')

/-- `KvmIrqRouting::modify(entry)` as a state transformer: ENOENT when the
key is absent; otherwise replace the entry and commit. -/
def KvmIrqRouting.modifyRun (commit : Routes → Except IrqError Unit)
    (routes : Routes) (e : KvmIrqEntry) : Except IrqError Unit × Routes :=
  if Routes.containsKey routes (hash_key e) then
    let routes' := Routes.insert routes (hash_key e) e
    (commit routes', routes')
  else (.error .ENOENT, routes)

/-- `LegacyIrq::add_legacy_entry(gsi, chip, pin, routes)`: build an
irqchip routing entry and insert it under its hash key. -/
def add_legacy_entry (gsi chip pin : Nat) (routes : Routes) : Routes :=
  Routes.insert routes (hash_key ⟨gsi, KVM_IRQ_ROUTING_IRQCHIP, chip, pin⟩)
    ⟨gsi, KVM_IRQ_ROUTING_IRQCHIP, chip, pin⟩

/-- `LegacyIrq::initialize_legacy(routes)` (x86): master PIC entries for
GSIs `0..8` except 2 (pin = GSI), slave PIC entries for GSIs `8..16`
(pin = GSI - 8), and first-IOAPIC entries for GSIs `0..MAX_LEGACY_IRQS`
where GSI 0 goes to pin 2, GSI 2 is skipped, and every other GSI `i` goes
to pin `i`. -/
def legacyRoutesBuild (routes : Routes) : Routes :=
  let r1 := (List.range 8).foldl
    (fun m i => if i ≠ 2 then add_legacy_entry i KVM_IRQCHIP_PIC_MASTER i m else m)
    routes
  let r2 := (List.range' 8 8).foldl
    (fun m i => add_legacy_entry i KVM_IRQCHIP_PIC_SLAVE (i - 8) m) r1
  (List.range MAX_LEGACY_IRQS).foldl
    (fun m i =>
      if i = 0 then add_legacy_entry i KVM_IRQCHIP_IOAPIC 2 m
      else if i ≠ 2 then add_legacy_entry i KVM_IRQCHIP_IOAPIC i m
      else m) r2

/-- `KvmIrqRouting::initialize()`: run `initialize_legacy` on the table
(empty at initialization time) and then call `set_routing` once with the
whole table. The first component is the resulting table; the second
records the sequence of tables handed to the backend — one commit, of the
whole table. -/
def KvmIrqRouting.initRun (routes : Routes) : Routes × List Routes :=
  let routes' := legacyRoutesBuild routes
  (routes', [routes'])

/-! ### Claim C7 -/

theorem status_or_and_compl (s f : Nat) (hs : s < 2 ^ 64) (hf : f < 2 ^ 32)
    (h : s &&& f = 0) : (s ||| f) &&& ((2 ^ 64 - 1) ^^^ f) = s := by
  apply Nat.eq_of_testBit_eq
  intro i
  have hbit : ¬(s.testBit i = true ∧ f.testBit i = true) := by
    rintro ⟨hsj, hfj⟩
    have hb := congrArg (fun n => n.testBit i) h
    simp [Nat.testBit_land, hsj, hfj] at hb
  rw [Nat.testBit_land, Nat.testBit_lor, Nat.testBit_xor,
    Nat.testBit_two_pow_sub_one]
  by_cases hi : i < 64
  · rw [decide_eq_true hi]
    cases hsb : s.testBit i <;> cases hfb : f.testBit i <;> simp_all
  · have h64 : (64 : Nat) ≤ i := le_of_not_lt hi
    have hsi : s.testBit i = false :=
      Nat.testBit_lt_two_pow
        (lt_of_lt_of_le hs (Nat.pow_le_pow_right (by norm_num) h64))
    have hfi : f.testBit i = false :=
      Nat.testBit_lt_two_pow
        (lt_of_lt_of_le hf (Nat.pow_le_pow_right (by norm_num) (by omega)))
    rw [decide_eq_false hi, hsi, hfi]
    rfl

/-- **C7**: on a legacy group in steady state — the status word carries
none of the `f` bits, which holds in particular in the enabled-idle state
where it is 0 — `trigger(0, f)` ORs `f` into the status word and writes 1
to the notifier, and the following `ack(0, f)` clears exactly those bits,
restoring the status word to its pre-trigger value. -/
theorem legacy_trigger_ack_roundtrip (s f : Nat) (hs : s < 2 ^ 64)
    (hf : f < 2 ^ 32) (hsteady : s &&& f = 0) :
    LegacyIrq.trigger s 0 f = .ok (s ||| f, 1) ∧
    LegacyIrq.ack (s ||| f) 0 f = .ok s := by
  constructor
  · simp [LegacyIrq.trigger]
  · simp only [LegacyIrq.ack, ne_eq, not_true_eq_false, if_false, USIZE_MAX]
    exact congrArg Except.ok (status_or_and_compl s f hs hf hsteady)

/-- Witness for C7: from the idle status word 0, `trigger(0, 3)` sets bits
0 and 1 and notifies; `ack(0, 3)` restores the status word to 0. -/
theorem legacy_trigger_ack_roundtrip_witness :
    LegacyIrq.trigger 0 0 3 = .ok (3, 1) ∧ LegacyIrq.ack 3 0 3 = .ok 0 := by
  have h := legacy_trigger_ack_roundtrip 0 3 (by norm_num) (by norm_num)
    (by decide)
  exact ⟨h.1, h.2⟩

/-! ### Claim C6 -/

/-- Counterexample to C6 as stated: the generic
`InterruptSourceGroup::enable` compares no lengths — it zips the sources
with the configs. On a two-source group with a single config (lengths 1 ≠ 2)
it returns `Ok(())` instead of an error. -/
theorem generic_enable_no_length_check_cex :
    InterruptSourceGroup.enable (⟨[0, 1]⟩ : InterruptSourceGroup Nat)
        (fun _ (_ : Unit) => Except.ok ()) [()] = Except.ok () ∧
      [()].length ≠ (⟨[0, 1]⟩ : InterruptSourceGroup Nat).len :=
  ⟨rfl, by decide⟩

/-- **C6 (amended)**: the KVM-backed group implementations enforce the
length precondition before touching any source — `LegacyIrq::enable`
returns EINVAL unless `configs.len() = 1` and `PciMsiIrq::enable` returns
EINVAL unless `configs.len() = count` — while the generic
`InterruptSourceGroup::enable` performs no length check: it enables the
positionally paired sources and returns success whenever each paired
per-source enable succeeds, also when the lengths differ. -/
theorem enable_length_check_kvm {C : Type} (configs : List C) :
    (∀ backend : Except IrqError Unit, configs.length ≠ 1 →
        LegacyIrq.enable backend configs = .error .EINVAL) ∧
    (∀ (count : Nat) (rest : Except IrqError Unit), configs.length ≠ count →
        PciMsiIrq.enable count rest configs = .error .EINVAL) ∧
    (∀ (g : InterruptSourceGroup Nat)
        (enableOne : Nat → C → Except IrqError Unit),
        (∀ i c, enableOne i c = .ok ()) →
          InterruptSourceGroup.enable g enableOne configs = .ok ()) := by
  refine ⟨?_, ?_, ?_⟩
  · intro backend h
    simp [LegacyIrq.enable, h]
  · intro count rest h
    simp [PciMsiIrq.enable, h]
  · intro g enableOne hok
    unfold InterruptSourceGroup.enable
    generalize g.vec.zip configs = l
    induction l with
    | nil => rfl
    | cons p rest ih =>
      unfold enableZipped
      rw [hok p.1 p.2]
      exact ih

/-- Witness for the amended C6: an empty config slice is refused by both
KVM group kinds, while the generic group accepts it (enabling nothing). -/
theorem enable_length_check_kvm_witness :
    LegacyIrq.enable (C := Unit) (.ok ()) [] = .error .EINVAL ∧
      PciMsiIrq.enable (C := Unit) 2 (.ok ()) [] = .error .EINVAL ∧
      InterruptSourceGroup.enable (⟨[5]⟩ : InterruptSourceGroup Nat)
        (fun _ (_ : Unit) => .ok ()) [] = .ok () := by
  have h := enable_length_check_kvm (C := Unit) []
  exact ⟨h.1 (.ok ()) (by decide), h.2.1 2 (.ok ()) (by decide),
    h.2.2 ⟨[5]⟩ _ (fun _ _ => rfl)⟩

/-! ### Claim C8 -/

theorem KvmIrqRouting.addCheck_eq_none_iff (routes : Routes)
    (entries : List KvmIrqEntry) :
    KvmIrqRouting.addCheck routes entries = none ↔
      ∀ e ∈ entries, e.gsi < MAX_IRQS ∧
        Routes.containsKey routes (hash_key e) = false := by
  induction entries with
  | nil => simp [KvmIrqRouting.addCheck]
  | cons e rest ih =>
    unfold KvmIrqRouting.addCheck
    by_cases h1 : MAX_IRQS ≤ e.gsi
    · rw [if_pos h1]
      constructor
      · intro h
        cases h
      · intro h
        exact absurd (h e (List.mem_cons_self e rest)).1 (not_lt.2 h1)
    · rw [if_neg h1]
      by_cases h2 : Routes.containsKey routes (hash_key e) = true
      · rw [if_pos h2]
        constructor
        · intro h
          cases h
        · intro h
          rw [(h e (List.mem_cons_self e rest)).2] at h2
          cases h2
      · rw [if_neg h2]
        rw [ih]
        have h2' : Routes.containsKey routes (hash_key e) = false := by
          revert h2
          cases Routes.containsKey routes (hash_key e) <;> simp
        constructor
        · intro h e' he'
          rcases List.mem_cons.1 he' with rfl | hm
          · exact ⟨not_le.1 h1, h2'⟩
          · exact h e' hm
        · intro h e' he'
          exact h e' (List.mem_cons_of_mem _ he')

theorem KvmIrqRouting.addCheck_some_cases {routes : Routes}
    {entries : List KvmIrqEntry} {err : IrqError}
    (h : KvmIrqRouting.addCheck routes entries = some err) :
    err = .EINVAL ∨ err = .EEXIST := by
  induction entries with
  | nil => cases h
  | cons e rest ih =>
    unfold KvmIrqRouting.addCheck at h
    by_cases h1 : MAX_IRQS ≤ e.gsi
    · rw [if_pos h1] at h
      cases h
      exact Or.inl rfl
    · rw [if_neg h1] at h
      by_cases h2 : Routes.containsKey routes (hash_key e) = true
      · rw [if_pos h2] at h
        cases h
        exact Or.inr rfl
      · rw [if_neg h2] at h
        exact ih h

/-- **C8**: `modify` succeeds only when the entry's key is already present
and returns ENOENT (not-found) otherwise; `add` succeeds only when no
entry's key is present and every entry's GSI is below `MAX_IRQS`, and when
that validation fails it returns EINVAL or EEXIST with the in-memory table
exactly as it was — the whole slice is validated before anything is
inserted. (`commit` abstracts the `set_gsi_routing` backend call.) -/
theorem routing_add_modify_preconditions
    (commit : Routes → Except IrqError Unit) (routes : Routes)
    (entries : List KvmIrqEntry) (e : KvmIrqEntry) :
    (Routes.containsKey routes (hash_key e) = false →
      KvmIrqRouting.modifyRun commit routes e = (.error .ENOENT, routes)) ∧
    (∀ u, (KvmIrqRouting.modifyRun commit routes e).1 = .ok u →
      Routes.containsKey routes (hash_key e) = true) ∧
    (∀ u, (KvmIrqRouting.addRun commit routes entries).1 = .ok u →
      ∀ en ∈ entries, en.gsi < MAX_IRQS ∧
        Routes.containsKey routes (hash_key en) = false) ∧
    ((∃ en ∈ entries, MAX_IRQS ≤ en.gsi ∨
        Routes.containsKey routes (hash_key en) = true) →
      ∃ err, (err = IrqError.EINVAL ∨ err = IrqError.EEXIST) ∧
        KvmIrqRouting.addRun commit routes entries = (.error err, routes)) := by
  refine ⟨?_, ?_, ?_, ?_⟩
  · intro h
    unfold KvmIrqRouting.modifyRun
    rw [h]
    rfl
  · intro u h
    cases hc : Routes.containsKey routes (hash_key e) with
    | true => rfl
    | false =>
      unfold KvmIrqRouting.modifyRun at h
      rw [hc] at h
      cases h
  · intro u h
    cases hc : KvmIrqRouting.addCheck routes entries with
    | some err =>
      unfold KvmIrqRouting.addRun at h
      rw [hc] at h
      cases h
    | none =>
      exact (KvmIrqRouting.addCheck_eq_none_iff routes entries).1 hc
  · intro h
    cases hc : KvmIrqRouting.addCheck routes entries with
    | none =>
      obtain ⟨en, hen, hbad⟩ := h
      have := (KvmIrqRouting.addCheck_eq_none_iff routes entries).1 hc en hen
      rcases hbad with hb | hb
      · exact absurd this.1 (not_lt.2 hb)
      · rw [this.2] at hb
        cases hb
    | some err =>
      refine ⟨err, KvmIrqRouting.addCheck_some_cases hc, ?_⟩
      unfold KvmIrqRouting.addRun
      rw [hc]

/-- Witness for C8: on the empty table, `modify` of a fresh entry returns
ENOENT, and `add` of an entry with GSI 2000 (≥ MAX_IRQS) fails leaving the
table empty. -/
theorem routing_add_modify_preconditions_witness :
    KvmIrqRouting.modifyRun (fun _ => .ok ()) [] ⟨5, 1, 0, 5⟩
        = (.error .ENOENT, []) ∧
      KvmIrqRouting.addRun (fun _ => .ok ()) [] [⟨2000, 1, 0, 0⟩]
        = (.error .EINVAL, []) := by
  have h := routing_add_modify_preconditions (fun _ => .ok ()) []
    [⟨2000, 1, 0, 0⟩] ⟨5, 1, 0, 5⟩
  refine ⟨h.1 (by decide), ?_⟩
  obtain ⟨err, herr, heq⟩ := h.2.2.2 ⟨⟨2000, 1, 0, 0⟩, by decide, by decide⟩
  rcases herr with rfl | rfl
  · exact heq
  · have : KvmIrqRouting.addCheck [] [⟨2000, 1, 0, 0⟩] = some .EINVAL := by decide
    unfold KvmIrqRouting.addRun at heq
    rw [this] at heq
    simp at heq

/-! ### Claim C9 -/

/-- Counterexample to C9 as stated: the claim's route set contains an
I/O APIC entry for every GSI in 0-23 (39 entries in total, with the pin
0↔2 swap giving GSI 2 pin 0); but `initialize_legacy` *skips* GSI 2 on the
I/O APIC — the built table has no entry under the (IOAPIC, GSI 2) key and
holds only 38 entries. -/
theorem legacy_routes_gsi2_ioapic_missing_cex :
    Routes.containsKey (legacyRoutesBuild [])
        (hash_key ⟨2, KVM_IRQ_ROUTING_IRQCHIP, KVM_IRQCHIP_IOAPIC, 0⟩) = false ∧
      (legacyRoutesBuild []).length = 38 := by
  constructor
  · rfl
  · rfl

/-- The route table described by the amended claim, written out from its
words: master PIC entries for GSIs 0-7 except 2 with pin = GSI; slave PIC
entries for GSIs 8-15 with pin = GSI - 8; I/O APIC entries for GSIs 0-23
except 2, with GSI 0 routed to pin 2 (the timer swap, one-directional) and
every other GSI `i` routed to pin `i`. -/
def expectedLegacyRoutes : Routes :=
  (((List.range 8).filter fun i => i ≠ 2).map fun i =>
    (hash_key ⟨i, KVM_IRQ_ROUTING_IRQCHIP, KVM_IRQCHIP_PIC_MASTER, i⟩,
      ⟨i, KVM_IRQ_ROUTING_IRQCHIP, KVM_IRQCHIP_PIC_MASTER, i⟩))
  ++ ((List.range' 8 8).map fun i =>
    (hash_key ⟨i, KVM_IRQ_ROUTING_IRQCHIP, KVM_IRQCHIP_PIC_SLAVE, i - 8⟩,
      ⟨i, KVM_IRQ_ROUTING_IRQCHIP, KVM_IRQCHIP_PIC_SLAVE, i - 8⟩))
  ++ (((List.range 24).filter fun i => i ≠ 2).map fun i =>
    (hash_key ⟨i, KVM_IRQ_ROUTING_IRQCHIP, KVM_IRQCHIP_IOAPIC,
        if i = 0 then 2 else i⟩,
      ⟨i, KVM_IRQ_ROUTING_IRQCHIP, KVM_IRQCHIP_IOAPIC,
        if i = 0 then 2 else i⟩))

/-- **C9 (amended)**: on the empty routing table, initialization installs
exactly the platform default routes of `expectedLegacyRoutes` — master PIC
GSIs 0-7 except 2 (pin = GSI), slave PIC GSIs 8-15 (pin = GSI - 8), and
I/O APIC GSIs 0-23 **except 2** with GSI 0 sent to pin 2 — and commits the
whole table to the hypervisor backend in exactly one call. -/
theorem legacy_routes_exact :
    KvmIrqRouting.initRun [] = (expectedLegacyRoutes, [expectedLegacyRoutes]) := by
  rfl
